import Mathlib

/-!
Shallow embedding of `src/tricks.py`, a command-line tool that merges two
music-service playlists by interleaving their tracks and that prints playlist
track titles.  The external API client (`sp`) is modelled by explicit data:
a playlist is the sequence of pages the client would return, where each page
is a list of item slots (a slot optionally carries a track URI), and the
continuation cursor is present exactly when further pages remain.
-/

/-- A page item slot: `some uri` when the slot has an attached track (the
dict `item["track"]` is truthy), `none` otherwise. -/
abbrev Page := List (Option String)

/-- Track URIs of the slots of one page that have an attached track, in
page order. -/
def pageUris (p : Page) : List String := p.filterMap id

/-- All track URIs of a playlist given as a list of pages, in source order,
skipping slots with no attached track. -/
def flatUris (pages : List Page) : List String := pages.flatMap pageUris

/-- Result of running the pagination loop: the collected URIs and the number
of page fetches performed (the initial `sp.playlist_tracks` call plus one per
`sp.next` call). -/
structure FetchResult where
  uris : List String
  fetched : Nat
deriving Repr, DecidableEq

/-- The loop guard `limit is not None and len(uris) >= limit` of
`get_all_track_uris` (negation of the `while` condition's second conjunct). -/
def reached (limit : Option Nat) (uris : List String) : Bool :=
  match limit with
  | none => false
  | some l => decide (l ≤ uris.length)

/-- The inner `for item in results["items"]` loop of `get_all_track_uris`:
append the URI of each slot that has a track, breaking as soon as the limit
is reached. -/
def collectItems (limit : Option Nat) (uris : List String) : List (Option String) → List String
  | [] => uris
  | none :: items => collectItems limit uris items
  | some u :: items =>
    let uris2 := uris ++ [u]
    if reached limit uris2 then uris2 else collectItems limit uris2 items

/-- The outer `while results and (limit is None or len(uris) < limit)` loop of
`get_all_track_uris`.  The head of the list is the page currently held in
`results`; the tail is what later `sp.next` calls would return; `results` is
`None` when the list is empty.  `fetched` counts fetches performed so far. -/
def pagesLoop (limit : Option Nat) : List Page → List String → Nat → FetchResult
  | [], uris, fetched => ⟨uris, fetched⟩
  | page :: rest, uris, fetched =>
    if reached limit uris then ⟨uris, fetched⟩
    else
      let uris2 := collectItems limit uris page
      if reached limit uris2 then ⟨uris2, fetched⟩
      else if rest.isEmpty then ⟨uris2, fetched⟩
      else pagesLoop limit rest uris2 (fetched + 1)

/-- Embedding of `get_all_track_uris(playlist_id, limit)`.  The playlist is
the first page returned by `sp.playlist_tracks` plus the further pages
`sp.next` would return; the initial call counts as one fetch. -/
def get_all_track_uris (firstPage : Page) (rest : List Page) (limit : Option Nat) : FetchResult :=
  pagesLoop limit (firstPage :: rest) [] 1

/-- One iteration of the `for i in range(max_len)` loop of `merge_playlists`:
append `tracks1[i]` when `i < len(tracks1)`, then `tracks2[i]` when
`i < len(tracks2)`. -/
def mergeIter (tracks1 tracks2 : List String) (i : Nat) (merged : List String) : List String :=
  let m1 := if h : i < tracks1.length then merged ++ [tracks1.get ⟨i, h⟩] else merged
  if h : i < tracks2.length then m1 ++ [tracks2.get ⟨i, h⟩] else m1

/-- The pair of elements one loop iteration of `merge_playlists` appends at
index `i`. -/
def pairAt (tracks1 tracks2 : List String) (i : Nat) : List String :=
  (if h : i < tracks1.length then [tracks1.get ⟨i, h⟩] else [])
    ++ (if h : i < tracks2.length then [tracks2.get ⟨i, h⟩] else [])

/-- The merged-sequence construction of `merge_playlists`: iterate `i` over
`range(max(len(tracks1), len(tracks2)))`, appending `tracks1[i]` and then
`tracks2[i]` when in range. -/
def buildMerged (tracks1 tracks2 : List String) : List String :=
  (List.range (max tracks1.length tracks2.length)).foldl
    (fun merged i => mergeIter tracks1 tracks2 i merged) []

/-- Modelled from the spec: positional interleaving in forward order —
element 0 of A, element 0 of B, element 1 of A, element 1 of B, …, appending
the leftover tail of the longer sequence.  Used to compare `buildMerged`
(translated from the code) against the spec wording. -/
def specInterleave : List String → List String → List String
  | [], ys => ys
  | x :: xs, [] => x :: xs
  | x :: xs, y :: ys => x :: y :: specInterleave xs ys

/-- The batch-write loop of `merge_playlists`: `for i in range(0, len(merged), 100)`
take the slice `merged[i : i + 100]`.  `range(0, n, 100)` has `(n + 99) / 100`
elements `0, 100, 200, …`. -/
def writeBatches (merged : List String) : List (List String) :=
  (List.range' 0 ((merged.length + 99) / 100) 100).map
    (fun i => (merged.drop i).take 100)

/-- A single apostrophe character, used in the summary line printed by
`merge_playlists`. -/
def squoteStr : String := String.singleton (Char.ofNat 39)

/-- The data the external client would serve during one `merge_playlists`
invocation: the current user's id, the pages of the two source playlists and
the id the service assigns to the newly created playlist. -/
structure SpotEnv where
  userId : String
  pl1first : Page
  pl1rest : List Page
  pl2first : Page
  pl2rest : List Page
  newPlaylistId : String
deriving Repr, DecidableEq

/-- Observable effects of one successful `merge_playlists` invocation:
playlist-creation calls `(user_id, name, public)`, `playlist_add_items` calls
`(playlist_id, batch)`, the line printed on standard output, and the
function's return value (the Python function is annotated `-> None`). -/
structure MergeEffects where
  creations : List (String × String × Bool)
  writes : List (String × List String)
  output : String
  retVal : Option (String × Nat)
deriving Repr, DecidableEq

/-- The merged track sequence `merge_playlists` builds from the two source
playlists, each fetched with limit `per_src_limit`. -/
def mergedTracks (env : SpotEnv) (per_src_limit : Nat) : List String :=
  buildMerged (get_all_track_uris env.pl1first env.pl1rest (some per_src_limit)).uris
    (get_all_track_uris env.pl2first env.pl2rest (some per_src_limit)).uris

/-- Embedding of `merge_playlists(src1_id, src2_id, new_name, per_src_limit)`
on the happy path: resolve the user, fetch both sources with the limit,
interleave, create one private playlist, write the merged sequence in batches
of 100 to it, print the summary line, and return `None`. -/
def merge_playlists (env : SpotEnv) (new_name : String) (per_src_limit : Nat) : MergeEffects :=
  let user_id := env.userId
  let merged := mergedTracks env per_src_limit
  let new_pl_id := env.newPlaylistId
  { creations := [(user_id, new_name, false)]
    writes := (writeBatches merged).map (fun batch => (new_pl_id, batch))
    output := "created playlist " ++ squoteStr ++ new_name ++ squoteStr ++ " with "
        ++ toString merged.length ++ " tracks."
    retVal := none }

/-- A concrete environment used to exhibit counterexamples: three tracks in
source 1, two in source 2, destination playlist id `PLID123`. -/
def exEnv : SpotEnv :=
  { userId := "user1"
    pl1first := [some "a0", some "a1", some "a2"]
    pl1rest := []
    pl2first := [some "b0", some "b1"]
    pl2rest := []
    newPlaylistId := "PLID123" }

/-- Track metadata as consumed by `print_titles`: the track's name and the
names of its listed artists (`artists` may be empty or absent; both are
modelled by the empty list, matching `track.get("artists") or []`). -/
structure Track where
  name : String
  artists : List String
deriving Repr, DecidableEq

/-- A page of `print_titles` results: item slots optionally carrying a track. -/
abbrev TitlePage := List (Option Track)

/-- All attached tracks of a playlist's pages, in source order. -/
def attachedTracks (pages : List TitlePage) : List Track :=
  pages.flatMap (fun p => p.filterMap id)

/-- The artist-variable update for one track of `print_titles`:
`artists = track.get("artists") or []; if artists: artist_name = artists[0]["name"]` —
a nonempty artist list rebinds the variable to the first artist's name, an
empty one leaves it as it was. -/
def nextArtist (artist : Option String) (t : Track) : Option String :=
  match t.artists with
  | [] => artist
  | a :: _ => some a

/-- The inner `for item in results["items"]` loop of `print_titles`.  State:
`artist` is the current value of the local variable `artist_name` (`none`
while it is still unbound), `out` the lines printed so far.  A track with a
nonempty artist list rebinds `artist_name` to its first artist; then the line
`"<name> - <artist_name>"` is printed — reading `artist_name` while it is
unbound raises `UnboundLocalError`, modelled by the `true` error flag, with
no line printed for that track. -/
def titlesItems (artist : Option String) (out : List String) :
    List (Option Track) → Option String × List String × Bool
  | [] => (artist, out, false)
  | none :: items => titlesItems artist out items
  | some t :: items =>
    match nextArtist artist t with
    | some a => titlesItems (some a) (out ++ [t.name ++ " - " ++ a]) items
    | none => (none, out, true)

/-- The outer page loop of `print_titles` (`while results: … if next: … else break`).
Returns the printed lines and whether an `UnboundLocalError` aborted the walk. -/
def titlesGo (artist : Option String) (out : List String) :
    List TitlePage → List String × Bool
  | [] => (out, false)
  | p :: rest =>
    let r := titlesItems artist out p
    if r.2.2 then (r.2.1, true)
    else if rest.isEmpty then (r.2.1, false)
    else titlesGo r.1 r.2.1 rest

/-- Embedding of `print_titles(playlist_id)`: walk all pages starting from the
initial `sp.playlist_tracks` page, with the `artist_name` variable unbound. -/
def print_titles (firstPage : TitlePage) (rest : List TitlePage) : List String × Bool :=
  titlesGo none [] (firstPage :: rest)

/-- Modelled from the spec: the expected title lines over the flattened track
list — one line `"<name> - <artist>"` per track, where the artist is the
track's first listed artist, or else the most recently seen one; a track with
no listed artist and no previously seen artist aborts with an error.  Returns
(final last-seen artist, lines, error flag). -/
def specTitles (artist : Option String) : List Track → Option String × List String × Bool
  | [] => (artist, [], false)
  | t :: ts =>
    match nextArtist artist t with
    | none => (none, [], true)
    | some a =>
      let r := specTitles (some a) ts
      (r.1, (t.name ++ " - " ++ a) :: r.2.1, r.2.2)

/-- Name selection in `main` for the merge subcommand:
`args.name if args.name else f"Mixed playlist {datetime.datetime.now().strftime(...)}"`.
`today` stands for the `%Y-%m-%d` rendering of the current date; Python
truthiness makes both `None` and the empty string fall back to the default. -/
def chooseName (nameArg : Option String) (today : String) : String :=
  match nameArg with
  | some n => if n = "" then "Mixed playlist " ++ today else n
  | none => "Mixed playlist " ++ today

/-- The collaborator calls `merge_playlists` can issue.  `deletePlaylist` is
in the vocabulary only to state that no cleanup deletion is ever issued; the
code never produces it. -/
inductive ApiCall where
  | currentUser : ApiCall
  | fetchTracks : Nat → ApiCall
  | createPlaylist : String → String → Bool → ApiCall
  | addItems : String → List String → ApiCall
  | deletePlaylist : String → ApiCall
deriving Repr, DecidableEq

/-- Failure-injected outcomes of the collaborator calls made by
`merge_playlists`, in program order: the current-user lookup, the two source
fetches, the playlist creation, and the k-th `playlist_add_items` call. -/
structure MergeOutcomes where
  userRes : Except String String
  tracks1Res : Except String (List String)
  tracks2Res : Except String (List String)
  createRes : Except String String
  addRes : Nat → Except String Unit

/-- The batch-write loop of `merge_playlists` under injected outcomes: each
batch issues one `addItems` call; the first failing call aborts the loop and
the raised error is returned as is (the code has no try/except). -/
def addLoop (o : MergeOutcomes) (pl : String) :
    List (List String) → Nat → List ApiCall × Except String Unit
  | [], _ => ([], Except.ok ())
  | b :: bs, k =>
    match o.addRes k with
    | Except.error e => ([ApiCall.addItems pl b], Except.error e)
    | Except.ok _ =>
      (ApiCall.addItems pl b :: (addLoop o pl bs (k + 1)).1,
        (addLoop o pl bs (k + 1)).2)

/-- Embedding of `merge_playlists` as straight-line sequencing of collaborator
calls under injected outcomes: the trace of calls attempted, and either
success or the first raised error, propagated unmodified (the code catches
nothing and performs no further call after a failure). -/
def merge_playlists_run (o : MergeOutcomes) (nm : String) :
    List ApiCall × Except String Unit :=
  match o.userRes with
  | Except.error e => ([ApiCall.currentUser], Except.error e)
  | Except.ok uid =>
    match o.tracks1Res with
    | Except.error e => ([ApiCall.currentUser, ApiCall.fetchTracks 1], Except.error e)
    | Except.ok t1 =>
      match o.tracks2Res with
      | Except.error e =>
        ([ApiCall.currentUser, ApiCall.fetchTracks 1, ApiCall.fetchTracks 2], Except.error e)
      | Except.ok t2 =>
        match o.createRes with
        | Except.error e =>
          ([ApiCall.currentUser, ApiCall.fetchTracks 1, ApiCall.fetchTracks 2,
            ApiCall.createPlaylist uid nm false], Except.error e)
        | Except.ok plid =>
          ([ApiCall.currentUser, ApiCall.fetchTracks 1, ApiCall.fetchTracks 2,
            ApiCall.createPlaylist uid nm false]
              ++ (addLoop o plid (writeBatches (buildMerged t1 t2)) 0).1,
           (addLoop o plid (writeBatches (buildMerged t1 t2)) 0).2)

/-- Concrete injected outcomes: everything succeeds except every
`playlist_add_items` call, which raises `"boom"`. -/
def exOutcomes : MergeOutcomes :=
  { userRes := Except.ok "user1"
    tracks1Res := Except.ok ["a0", "a1", "a2"]
    tracks2Res := Except.ok ["b0", "b1"]
    createRes := Except.ok "PLID123"
    addRes := fun _ => Except.error "boom" }

lemma reached_none (uris : List String) : reached none uris = false := rfl

lemma reached_some_iff (l : Nat) (uris : List String) :
    reached (some l) uris = true ↔ l ≤ uris.length := by
  simp [reached]

lemma pageUris_cons_none (items : List (Option String)) :
    pageUris (none :: items) = pageUris items := by
  simp [pageUris]

lemma pageUris_cons_some (u : String) (items : List (Option String)) :
    pageUris (some u :: items) = u :: pageUris items := by
  simp [pageUris]

lemma collectItems_none (uris : List String) (items : List (Option String)) :
    collectItems none uris items = uris ++ pageUris items := by
  induction items generalizing uris with
  | nil => simp [collectItems, pageUris]
  | cons x items ih =>
    cases x with
    | none => simp [collectItems, pageUris_cons_none, ih]
    | some u =>
      simp only [collectItems, reached_none, Bool.false_eq_true, if_false,
        pageUris_cons_some, ih]
      simp

lemma collectItems_some (L : Nat) (uris : List String) (items : List (Option String))
    (h : uris.length < L) :
    collectItems (some L) uris items = (uris ++ pageUris items).take L := by
  induction items generalizing uris with
  | nil =>
    simp only [collectItems, pageUris, List.filterMap_nil, List.append_nil]
    exact (List.take_of_length_le (Nat.le_of_lt h)).symm
  | cons x items ih =>
    cases x with
    | none => simpa [collectItems, pageUris_cons_none] using ih uris h
    | some u =>
      by_cases hr : reached (some L) (uris ++ [u]) = true
      · have hL : L = uris.length + 1 := by
          have := (reached_some_iff L (uris ++ [u])).mp hr
          simp only [List.length_append, List.length_singleton] at this
          omega
        simp only [collectItems, hr, if_true, pageUris_cons_some]
        have h3 : (uris ++ u :: pageUris items).take L = uris ++ [u] := by
          subst hL
          have h4 : (uris ++ (u :: pageUris items)).take (uris.length + 1)
              = uris ++ (u :: pageUris items).take 1 := List.take_append 1
          simpa using h4
        exact h3.symm
      · have hlt : (uris ++ [u]).length < L := by
          rw [Bool.not_eq_true] at hr
          simp only [reached, decide_eq_false_iff_not, not_le] at hr
          exact hr
        simp only [collectItems, hr, if_false, pageUris_cons_some]
        rw [ih (uris ++ [u]) hlt]
        simp

lemma pagesLoop_cons (limit : Option Nat) (page : Page) (rest : List Page)
    (uris : List String) (f : Nat) :
    pagesLoop limit (page :: rest) uris f =
      if reached limit uris then ⟨uris, f⟩
      else if reached limit (collectItems limit uris page) then
        ⟨collectItems limit uris page, f⟩
      else if rest.isEmpty then ⟨collectItems limit uris page, f⟩
      else pagesLoop limit rest (collectItems limit uris page) (f + 1) := rfl

lemma pagesLoop_none (pages : List Page) (uris : List String) (f : Nat)
    (h : pages ≠ []) :
    pagesLoop none pages uris f = ⟨uris ++ flatUris pages, f + (pages.length - 1)⟩ := by
  induction pages generalizing uris f with
  | nil => exact absurd rfl h
  | cons page rest ih =>
    rw [pagesLoop_cons]
    simp only [reached_none, Bool.false_eq_true, if_false, collectItems_none]
    cases rest with
    | nil => simp [flatUris]
    | cons r rs =>
      simp only [List.isEmpty_cons, Bool.false_eq_true, if_false]
      rw [ih (uris ++ pageUris page) (f + 1) (by simp)]
      simp only [flatUris, List.flatMap_cons, List.append_assoc, List.length_cons,
        FetchResult.mk.injEq]
      exact ⟨trivial, by omega⟩

lemma pagesLoop_some_uris (L : Nat) (pages : List Page) (uris : List String) (f : Nat)
    (h : uris.length < L) :
    (pagesLoop (some L) pages uris f).uris = (uris ++ flatUris pages).take L := by
  induction pages generalizing uris f with
  | nil =>
    simp only [pagesLoop, flatUris, List.flatMap_nil, List.append_nil]
    exact (List.take_of_length_le (Nat.le_of_lt h)).symm
  | cons page rest ih =>
    have hg : reached (some L) uris = false := by
      simp [reached, Nat.not_le.mpr h]
    rw [pagesLoop_cons]
    simp only [hg, Bool.false_eq_true, if_false]
    rw [collectItems_some L uris page h]
    by_cases hr : reached (some L) ((uris ++ pageUris page).take L) = true
    · have hle : L ≤ (uris ++ pageUris page).length := by
        have := (reached_some_iff _ _).mp hr
        rw [List.length_take] at this
        omega
      simp only [hr, if_true]
      rw [flatUris, List.flatMap_cons, ← List.append_assoc,
        List.take_append_of_le_length hle]
    · have hrf : reached (some L) ((uris ++ pageUris page).take L) = false := by
        rwa [Bool.not_eq_true] at hr
      have hlt : ((uris ++ pageUris page).take L).length < L := by
        simp only [reached, decide_eq_false_iff_not, not_le] at hrf
        exact hrf
      have hfull : (uris ++ pageUris page).take L = uris ++ pageUris page := by
        rw [List.length_take] at hlt
        exact List.take_of_length_le (by omega)
      rw [hfull] at hrf hlt ⊢
      cases rest with
      | nil =>
        simp only [hrf, Bool.false_eq_true, if_false, List.isEmpty_nil, if_true]
        simp only [flatUris, List.flatMap_cons, List.flatMap_nil, List.append_nil]
        exact hfull.symm
      | cons r rs =>
        simp only [hrf, Bool.false_eq_true, if_false, List.isEmpty_cons]
        rw [ih (uris ++ pageUris page) (f + 1) hlt]
        simp [flatUris, List.append_assoc]

lemma pagesLoop_append_frozen (L : Nat) (pages rest2 : List Page)
    (uris : List String) (f : Nat)
    (h : uris.length < L) (hle : L ≤ (uris ++ flatUris pages).length) :
    pagesLoop (some L) (pages ++ rest2) uris f = pagesLoop (some L) pages uris f := by
  induction pages generalizing uris f with
  | nil =>
    exfalso
    simp only [flatUris, List.flatMap_nil, List.append_nil] at hle
    omega
  | cons page rest ih =>
    have hg : reached (some L) uris = false := by
      simp [reached, Nat.not_le.mpr h]
    rw [List.cons_append, pagesLoop_cons, pagesLoop_cons]
    simp only [hg, Bool.false_eq_true, if_false]
    by_cases hr : reached (some L) (collectItems (some L) uris page) = true
    · simp [hr]
    · have hrf : reached (some L) (collectItems (some L) uris page) = false := by
        rwa [Bool.not_eq_true] at hr
      have hlt : (collectItems (some L) uris page).length < L := by
        simp only [reached, decide_eq_false_iff_not, not_le] at hrf
        exact hrf
      have hfull : collectItems (some L) uris page = uris ++ pageUris page := by
        rw [collectItems_some L uris page h]
        rw [collectItems_some L uris page h, List.length_take] at hlt
        exact List.take_of_length_le (by omega)
      cases rest with
      | nil =>
        exfalso
        simp only [flatUris, List.flatMap_cons, List.flatMap_nil,
          List.append_nil, List.length_append] at hle
        rw [hfull] at hlt
        simp only [List.length_append] at hlt
        omega
      | cons r rs =>
        simp only [hrf, Bool.false_eq_true, if_false, List.cons_append,
          List.isEmpty_cons]
        have hle2 : L ≤ (collectItems (some L) uris page ++ flatUris (r :: rs)).length := by
          rw [hfull]
          simp only [flatUris, List.flatMap_cons, List.length_append] at hle ⊢
          omega
        have := ih (collectItems (some L) uris page) (f + 1) hlt hle2
        simpa using this

lemma getAll_some_uris (firstPage : Page) (rest : List Page) (L : Nat) :
    (get_all_track_uris firstPage rest (some L)).uris = (flatUris (firstPage :: rest)).take L := by
  rcases Nat.eq_zero_or_pos L with hL | hL
  · subst hL
    simp [get_all_track_uris, pagesLoop, reached]
  · unfold get_all_track_uris
    rw [pagesLoop_some_uris L (firstPage :: rest) [] 1 (by simpa using hL)]
    simp

lemma getAll_none (firstPage : Page) (rest : List Page) :
    get_all_track_uris firstPage rest none = ⟨flatUris (firstPage :: rest), (firstPage :: rest).length⟩ := by
  unfold get_all_track_uris
  rw [pagesLoop_none (firstPage :: rest) [] 1 (by simp)]
  simp only [List.nil_append, List.length_cons, FetchResult.mk.injEq]
  exact ⟨trivial, by omega⟩

/-- C2: with limit `L` the paginator returns the first `min (N, L)` of the `N`
track URIs attached to the playlist's slots, in source page order and skipping
trackless slots; with no limit it returns all `N` and fetches every page
(continues until no continuation cursor); and once the limit is covered by the
pages already seen, any further pages are never fetched and do not change the
result (the loop stops mid-page). -/
theorem C2_get_all_track_uris_spec (firstPage : Page) (rest rest2 : List Page) (L : Nat) :
    (get_all_track_uris firstPage rest (some L)).uris = (flatUris (firstPage :: rest)).take L
    ∧ (get_all_track_uris firstPage rest (some L)).uris.length
        = min (flatUris (firstPage :: rest)).length L
    ∧ (get_all_track_uris firstPage rest none).uris = flatUris (firstPage :: rest)
    ∧ (get_all_track_uris firstPage rest none).fetched = (firstPage :: rest).length
    ∧ (L ≤ (flatUris (firstPage :: rest)).length →
        get_all_track_uris firstPage (rest ++ rest2) (some L)
          = get_all_track_uris firstPage rest (some L)) := by
  refine ⟨getAll_some_uris firstPage rest L, ?_, ?_, ?_, ?_⟩
  · rw [getAll_some_uris firstPage rest L, List.length_take, Nat.min_comm]
  · rw [getAll_none]
  · rw [getAll_none]
  · intro hle
    rcases Nat.eq_zero_or_pos L with hL | hL
    · subst hL
      simp [get_all_track_uris, pagesLoop, reached]
    · unfold get_all_track_uris
      have : (firstPage :: (rest ++ rest2)) = (firstPage :: rest) ++ rest2 := by simp
      rw [this]
      exact pagesLoop_append_frozen L (firstPage :: rest) rest2 [] 1
        (by simpa using hL) (by simpa using hle)

/-- Witness for C2 at a concrete playlist: pages `[[a, ∅, b], [c]]` with an
extra page `[[d]]` beyond the limit point, limit 2. -/
theorem C2_witness :
    get_all_track_uris [some "a", none, some "b"] ([[some "c"]] ++ [[some "d"]]) (some 2)
      = get_all_track_uris [some "a", none, some "b"] [[some "c"]] (some 2) :=
  (C2_get_all_track_uris_spec [some "a", none, some "b"] [[some "c"]] [[some "d"]] 2).2.2.2.2
    (by decide)

lemma mergeIter_eq (t1 t2 : List String) (i : Nat) (m : List String) :
    mergeIter t1 t2 i m = m ++ pairAt t1 t2 i := by
  unfold mergeIter pairAt
  by_cases h1 : i < t1.length <;> by_cases h2 : i < t2.length <;> simp [h1, h2]

lemma foldl_mergeIter_flatMap (t1 t2 : List String) (l : List Nat) (acc : List String) :
    l.foldl (fun merged i => mergeIter t1 t2 i merged) acc
      = acc ++ l.flatMap (pairAt t1 t2) := by
  induction l generalizing acc with
  | nil => simp
  | cons x l ih =>
    simp only [List.foldl_cons]
    rw [mergeIter_eq, ih, List.flatMap_cons, List.append_assoc]

lemma buildMerged_flatMap (t1 t2 : List String) :
    buildMerged t1 t2 = (List.range (max t1.length t2.length)).flatMap (pairAt t1 t2) := by
  unfold buildMerged
  rw [foldl_mergeIter_flatMap]
  rfl

lemma flatMap_range_succ (g : Nat → List String) (n : Nat) :
    (List.range (n + 1)).flatMap g = g 0 ++ (List.range n).flatMap (fun i => g (i + 1)) := by
  rw [List.range_succ_eq_map]
  simp [List.flatMap_cons, List.flatMap_map, Function.comp, Nat.succ_eq_add_one]

lemma pairAt_cons_cons_zero (a b : String) (t1 t2 : List String) :
    pairAt (a :: t1) (b :: t2) 0 = [a, b] := by
  simp [pairAt]

lemma pairAt_succ (a b : String) (t1 t2 : List String) (i : Nat) :
    pairAt (a :: t1) (b :: t2) (i + 1) = pairAt t1 t2 i := by
  unfold pairAt
  by_cases h1 : i < t1.length <;> by_cases h2 : i < t2.length <;>
    simp [h1, h2, Nat.succ_lt_succ_iff]

lemma pairAt_succ_left (a : String) (t1 : List String) (i : Nat) :
    pairAt (a :: t1) [] (i + 1) = pairAt t1 [] i := by
  unfold pairAt
  by_cases h1 : i < t1.length <;> simp [h1, Nat.succ_lt_succ_iff]

lemma pairAt_succ_right (b : String) (t2 : List String) (i : Nat) :
    pairAt [] (b :: t2) (i + 1) = pairAt [] t2 i := by
  unfold pairAt
  by_cases h2 : i < t2.length <;> simp [h2, Nat.succ_lt_succ_iff]

lemma buildMerged_cons_cons (a b : String) (t1 t2 : List String) :
    buildMerged (a :: t1) (b :: t2) = a :: b :: buildMerged t1 t2 := by
  rw [buildMerged_flatMap, buildMerged_flatMap]
  have hmax : max (a :: t1).length (b :: t2).length = max t1.length t2.length + 1 := by
    simp [List.length_cons, Nat.succ_max_succ]
  rw [hmax, flatMap_range_succ, pairAt_cons_cons_zero]
  simp [pairAt_succ]

lemma buildMerged_cons_nil (a : String) (t1 : List String) :
    buildMerged (a :: t1) [] = a :: buildMerged t1 [] := by
  rw [buildMerged_flatMap, buildMerged_flatMap]
  have hmax : max (a :: t1).length ([] : List String).length
      = max t1.length ([] : List String).length + 1 := by
    simp [List.length_cons]
  rw [hmax, flatMap_range_succ]
  have h0 : pairAt (a :: t1) [] 0 = [a] := by simp [pairAt]
  rw [h0]
  simp [pairAt_succ_left]

lemma buildMerged_nil_cons (b : String) (t2 : List String) :
    buildMerged [] (b :: t2) = b :: buildMerged [] t2 := by
  rw [buildMerged_flatMap, buildMerged_flatMap]
  have hmax : max ([] : List String).length (b :: t2).length
      = max ([] : List String).length t2.length + 1 := by
    simp [List.length_cons]
  rw [hmax, flatMap_range_succ]
  have h0 : pairAt [] (b :: t2) 0 = [b] := by simp [pairAt]
  rw [h0]
  simp [pairAt_succ_right]

lemma buildMerged_nil_right (t1 : List String) : buildMerged t1 [] = t1 := by
  induction t1 with
  | nil => rfl
  | cons a t1 ih => rw [buildMerged_cons_nil, ih]

lemma buildMerged_nil_left (t2 : List String) : buildMerged [] t2 = t2 := by
  induction t2 with
  | nil => rfl
  | cons b t2 ih => rw [buildMerged_nil_cons, ih]

lemma buildMerged_eq_specInterleave (t1 t2 : List String) :
    buildMerged t1 t2 = specInterleave t1 t2 := by
  induction t1 generalizing t2 with
  | nil => rw [buildMerged_nil_left]; cases t2 <;> rfl
  | cons a t1 ih =>
    cases t2 with
    | nil => rw [buildMerged_nil_right]; simp [specInterleave]
    | cons b t2 => rw [buildMerged_cons_cons, ih]; rfl

lemma specInterleave_length (t1 t2 : List String) :
    (specInterleave t1 t2).length = t1.length + t2.length := by
  induction t1 generalizing t2 with
  | nil => cases t2 <;> simp [specInterleave]
  | cons a t1 ih =>
    cases t2 with
    | nil => simp [specInterleave]
    | cons b t2 =>
      simp only [specInterleave, List.length_cons, ih]
      omega

/-- C1: `merge_playlists` builds the merged sequence by positional
interleaving in forward order — element 0 of A, element 0 of B, element 1 of
A, element 1 of B, …, appending the leftover tail of the longer sequence —
and in particular `[a0, a1, a2]` with `[b0, b1]` merges to
`[a0, b0, a1, b1, a2]`. -/
theorem C1_interleave_forward (A B : List String) (a0 a1 a2 b0 b1 : String) :
    buildMerged A B = specInterleave A B
    ∧ buildMerged [a0, a1, a2] [b0, b1] = [a0, b0, a1, b1, a2] :=
  ⟨buildMerged_eq_specInterleave A B, by rw [buildMerged_eq_specInterleave]; rfl⟩

/-- C9: the merged sequence built by `merge_playlists` from fetched sequences
of lengths n1 and n2 has length exactly n1 + n2. -/
theorem C9_merged_length_exact (t1 t2 : List String) :
    (buildMerged t1 t2).length = t1.length + t2.length := by
  rw [buildMerged_eq_specInterleave]
  exact specInterleave_length t1 t2

lemma writeBatches_nil : writeBatches [] = [] := rfl

lemma range'_shift (s d m step : Nat) :
    List.range' (s + d) m step = (List.range' s m step).map (· + d) := by
  induction m generalizing s with
  | zero => rfl
  | succ m ih =>
    simp only [List.range'_succ, List.map_cons]
    congr 1
    have h : s + d + step = s + step + d := by omega
    rw [h]
    exact ih (s + step)

lemma writeBatches_length (merged : List String) :
    (writeBatches merged).length = (merged.length + 99) / 100 := by
  unfold writeBatches
  rw [List.length_map, List.length_range']

lemma writeBatches_cons (merged : List String) (h : merged ≠ []) :
    writeBatches merged = merged.take 100 :: writeBatches (merged.drop 100) := by
  have hlen : 0 < merged.length := List.length_pos.mpr h
  have hk : (merged.length + 99) / 100 = ((merged.drop 100).length + 99) / 100 + 1 := by
    rw [List.length_drop]
    omega
  unfold writeBatches
  rw [hk, List.range'_succ, List.map_cons, List.drop_zero]
  congr 1
  rw [range'_shift 0 100 _ 100, List.map_map]
  congr 1
  funext i
  simp only [Function.comp_apply]
  rw [List.drop_drop, Nat.add_comm i 100]

lemma writeBatches_flatten (merged : List String) : (writeBatches merged).flatten = merged := by
  suffices H : ∀ n (l : List String), l.length = n → (writeBatches l).flatten = l from
    H merged.length merged rfl
  intro n
  induction n using Nat.strong_induction_on with
  | _ n ih =>
    intro l hn
    cases l with
    | nil => rfl
    | cons a l =>
      have hrec := ih ((a :: l).drop 100).length
        (by rw [List.length_drop, ← hn]; simp only [List.length_cons]; omega)
        ((a :: l).drop 100) rfl
      rw [writeBatches_cons (a :: l) (by simp), List.flatten_cons, hrec,
        List.take_append_drop]

lemma writeBatches_le100 (merged : List String) (b : List String)
    (hb : b ∈ writeBatches merged) : b.length ≤ 100 := by
  unfold writeBatches at hb
  obtain ⟨i, hi, rfl⟩ := List.mem_map.mp hb
  rw [List.length_take]
  omega

lemma writeBatches_getLast (merged : List String) (h : merged ≠ []) :
    ∃ b, (writeBatches merged).getLast? = some b
      ∧ b.length = if merged.length % 100 = 0 then 100 else merged.length % 100 := by
  suffices H : ∀ n (l : List String), l ≠ [] → l.length = n →
      ∃ b, (writeBatches l).getLast? = some b
        ∧ b.length = if l.length % 100 = 0 then 100 else l.length % 100 from
    H merged.length merged h rfl
  intro n
  induction n using Nat.strong_induction_on with
  | _ n ih =>
    intro l hne hn
    cases l with
    | nil => exact absurd rfl hne
    | cons a l =>
      by_cases hle : (a :: l).length ≤ 100
      · have hd : (a :: l).drop 100 = [] := List.drop_eq_nil_of_le hle
        rw [writeBatches_cons (a :: l) (by simp), hd, writeBatches_nil]
        refine ⟨(a :: l).take 100, by simp, ?_⟩
        rw [List.length_take]
        simp only [List.length_cons] at hle ⊢
        split_ifs with hmod
        · omega
        · omega
      · push_neg at hle
        simp only [List.length_cons] at hle
        have hd : (a :: l).drop 100 ≠ [] := by
          rw [← List.length_pos, List.length_drop]
          simp only [List.length_cons]
          omega
        obtain ⟨b, hb1, hb2⟩ := ih ((a :: l).drop 100).length
          (by rw [List.length_drop, ← hn]; simp only [List.length_cons]; omega)
          ((a :: l).drop 100) hd rfl
        rw [writeBatches_cons (a :: l) (by simp)]
        have hwb : writeBatches ((a :: l).drop 100) ≠ [] := by
          rw [← List.length_pos, writeBatches_length, List.length_drop]
          simp only [List.length_cons]
          omega
        obtain ⟨y, ys, hys⟩ := List.exists_cons_of_ne_nil hwb
        refine ⟨b, ?_, ?_⟩
        · rw [hys, List.getLast?_cons_cons, ← hys, hb1]
        · rw [hb2, List.length_drop]
          simp only [List.length_cons]
          have hmodeq : (l.length + 1) % 100 = (l.length + 1 - 100) % 100 := by omega
          rw [hmodeq]

/-- C3: the batch-write loop of `merge_playlists` issues `ceil(M/100)`
sequential `playlist_add_items` calls for a merged sequence of length `M`,
each batch has at most 100 URIs, the batches concatenated in call order equal
the merged sequence (so exactly `M` URIs are written in total), and the last
batch has `M mod 100` URIs, or 100 when `M` is a positive multiple of 100. -/
theorem C3_batch_write_law (merged : List String) :
    (writeBatches merged).length = (merged.length + 99) / 100
    ∧ (writeBatches merged).flatten = merged
    ∧ ((writeBatches merged).map List.length).sum = merged.length
    ∧ (∀ b ∈ writeBatches merged, b.length ≤ 100)
    ∧ (merged ≠ [] → ∃ b, (writeBatches merged).getLast? = some b
        ∧ b.length = if merged.length % 100 = 0 then 100 else merged.length % 100) := by
  refine ⟨writeBatches_length merged, writeBatches_flatten merged, ?_, ?_,
    writeBatches_getLast merged⟩
  · rw [← List.length_flatten, writeBatches_flatten]
  · intro b hb
    exact writeBatches_le100 merged b hb

/-- Witness for C3 at a concrete 205-element merged sequence: it is nonempty
and its last batch has 205 mod 100 = 5 elements. -/
theorem C3_witness :
    (List.replicate 205 "u" : List String) ≠ []
    ∧ (∃ b, (writeBatches (List.replicate 205 "u")).getLast? = some b
        ∧ b.length = if (List.replicate 205 "u").length % 100 = 0 then 100
            else (List.replicate 205 "u").length % 100) :=
  ⟨by decide, (C3_batch_write_law (List.replicate 205 "u")).2.2.2.2 (by decide)⟩

/-- C4 counterexample: at the concrete environment `exEnv` (destination id
`PLID123`, merged count 5) the merge operation does not return the destination
playlist reference with the merged count — its return value is `None`. -/
theorem C4_counterexample :
    (merge_playlists exEnv "My mix" 100).retVal = none
    ∧ (merge_playlists exEnv "My mix" 100).retVal ≠ some ("PLID123", 5)
    ∧ (merge_playlists exEnv "My mix" 100).output
        = "created playlist " ++ squoteStr ++ "My mix" ++ squoteStr
            ++ " with 5 tracks." :=
  ⟨rfl, by decide, by decide⟩

/-- C4 (amended): a successful merge invocation returns `None`; what it
reports is the printed summary line, which contains the destination playlist's
name and the merged track count, not the playlist reference. -/
theorem C4_merge_reports_name_and_count (env : SpotEnv) (nm : String) (L : Nat) :
    (merge_playlists env nm L).retVal = none
    ∧ (merge_playlists env nm L).output
        = "created playlist " ++ squoteStr ++ nm ++ squoteStr ++ " with "
            ++ toString (mergedTracks env L).length ++ " tracks." :=
  ⟨rfl, rfl⟩

/-- C8: every merge invocation creates the destination playlist exactly once,
owned by the user id resolved from the current-user call, named `new_name`,
with `public=False`; and all batch writes target the playlist id returned by
that single creation. -/
theorem C8_single_private_creation (env : SpotEnv) (nm : String) (L : Nat) :
    (merge_playlists env nm L).creations = [(env.userId, nm, false)]
    ∧ (merge_playlists env nm L).writes
        = (writeBatches (mergedTracks env L)).map (fun batch => (env.newPlaylistId, batch)) :=
  ⟨rfl, rfl⟩

/-- C7: when `--name` is omitted (`args.name` is `None`), the new playlist's
name is exactly `"Mixed playlist "` followed by the current date rendered as
`YYYY-MM-DD` by `strftime`; a nonempty explicit name is used unchanged. -/
theorem C7_default_name (today given : String) :
    chooseName none today = "Mixed playlist " ++ today
    ∧ (given ≠ "" → chooseName (some given) today = given) := by
  refine ⟨rfl, ?_⟩
  intro h
  simp [chooseName, h]

/-- Witness for C7 at a concrete date and explicit name. -/
theorem C7_witness :
    ("My mix" : String) ≠ "" ∧ chooseName (some "My mix") "2026-10-12" = "My mix" :=
  ⟨by decide, (C7_default_name "2026-10-12" "My mix").2 (by decide)⟩

lemma attachedTracks_nil : attachedTracks [] = [] := rfl

lemma attachedTracks_cons (p : TitlePage) (rest : List TitlePage) :
    attachedTracks (p :: rest) = p.filterMap id ++ attachedTracks rest := by
  simp [attachedTracks, List.flatMap_cons]

lemma titlesItems_spec (artist : Option String) (out : List String)
    (items : List (Option Track)) :
    titlesItems artist out items
      = ((specTitles artist (items.filterMap id)).1,
         out ++ (specTitles artist (items.filterMap id)).2.1,
         (specTitles artist (items.filterMap id)).2.2) := by
  induction items generalizing artist out with
  | nil => simp [titlesItems, specTitles]
  | cons x items ih =>
    cases x with
    | none =>
      simpa [titlesItems, List.filterMap_cons] using ih artist out
    | some t =>
      cases h2 : nextArtist artist t with
      | none =>
        simp [titlesItems, specTitles, List.filterMap_cons, h2]
      | some a =>
        simp only [titlesItems, specTitles, List.filterMap_cons, id, h2,
          ih (some a) (out ++ [t.name ++ " - " ++ a])]
        simp

lemma specTitles_append (artist : Option String) (xs ys : List Track) :
    specTitles artist (xs ++ ys)
      = if (specTitles artist xs).2.2 then
          ((specTitles artist xs).1, (specTitles artist xs).2.1, true)
        else ((specTitles (specTitles artist xs).1 ys).1,
          (specTitles artist xs).2.1 ++ (specTitles (specTitles artist xs).1 ys).2.1,
          (specTitles (specTitles artist xs).1 ys).2.2) := by
  induction xs generalizing artist with
  | nil => simp [specTitles]
  | cons t xs ih =>
    cases h2 : nextArtist artist t with
    | none => simp [specTitles, h2]
    | some a =>
      simp only [List.cons_append, specTitles, h2]
      by_cases herr : (specTitles (some a) xs).2.2 <;> simp [herr, ih (some a)]

lemma titlesGo_spec (artist : Option String) (out : List String)
    (pages : List TitlePage) :
    titlesGo artist out pages
      = (out ++ (specTitles artist (attachedTracks pages)).2.1,
         (specTitles artist (attachedTracks pages)).2.2) := by
  induction pages generalizing artist out with
  | nil => simp [titlesGo, attachedTracks_nil, specTitles]
  | cons p rest ih =>
    simp only [titlesGo, titlesItems_spec, attachedTracks_cons, specTitles_append]
    by_cases herr : (specTitles artist (p.filterMap id)).2.2
    · simp [herr]
    · simp only [herr, Bool.false_eq_true, if_false, eq_self_iff_true]
      cases rest with
      | nil =>
        simp [attachedTracks_nil, specTitles, herr]
      | cons r rs =>
        simp only [List.isEmpty_cons, Bool.false_eq_true, if_false,
          ih (specTitles artist (p.filterMap id)).1
            (out ++ (specTitles artist (p.filterMap id)).2.1)]
        simp [List.append_assoc, herr]

lemma specTitles_ok_length (artist : Option String) (ts : List Track)
    (h : (specTitles artist ts).2.2 = false) :
    (specTitles artist ts).2.1.length = ts.length := by
  induction ts generalizing artist with
  | nil => simp [specTitles]
  | cons t ts ih =>
    cases h2 : nextArtist artist t with
    | none => simp [specTitles, h2] at h
    | some a =>
      simp only [specTitles, h2] at h ⊢
      simp [ih (some a) h]

/-- C5 counterexample: for the playlist whose single attached track has no
listed artist, `print_titles` emits no line for that slot (it aborts with an
unbound-variable error), so it does not emit one line per attached slot. -/
theorem C5_counterexample :
    ¬ ((print_titles [some { name := "Z", artists := [] }] []).1.length
        = (attachedTracks [[some { name := "Z", artists := [] }]]).length) := by
  decide

/-- C5 (amended): `print_titles` behaves exactly like the sticky-artist line
renderer `specTitles` over the attached tracks — one line `"<name> - <artist>"`
per attached slot, the artist portion being the track's first listed artist or
else the most recent previously seen one — provided the walk does not hit a
track with no listed artist before any artist has been seen; in that failing
case it raises instead of printing a placeholder line.  When no error occurs
the number of emitted lines equals the number of attached slots, and the
spec's concrete example holds. -/
theorem C5_print_titles_sticky_artist (firstPage : TitlePage) (rest : List TitlePage) :
    print_titles firstPage rest
      = ((specTitles none (attachedTracks (firstPage :: rest))).2.1,
         (specTitles none (attachedTracks (firstPage :: rest))).2.2)
    ∧ ((print_titles firstPage rest).2 = false →
        (print_titles firstPage rest).1.length
          = (attachedTracks (firstPage :: rest)).length)
    ∧ print_titles [some { name := "X", artists := ["Y"] },
          some { name := "Z", artists := [] }] []
        = (["X - Y", "Z - Y"], false) := by
  have h1 : print_titles firstPage rest
      = ((specTitles none (attachedTracks (firstPage :: rest))).2.1,
         (specTitles none (attachedTracks (firstPage :: rest))).2.2) := by
    unfold print_titles
    rw [titlesGo_spec]
    simp
  refine ⟨h1, ?_, by decide⟩
  intro hok
  rw [h1] at hok ⊢
  exact specTitles_ok_length none (attachedTracks (firstPage :: rest)) hok

/-- Witness for C5 at a concrete playlist where no error occurs. -/
theorem C5_witness :
    (print_titles [some { name := "X", artists := ["Y"] },
        some { name := "Z", artists := [] }] []).2 = false
    ∧ (print_titles [some { name := "X", artists := ["Y"] },
        some { name := "Z", artists := [] }] []).1.length
      = (attachedTracks [[some { name := "X", artists := ["Y"] },
          some { name := "Z", artists := [] }]]).length :=
  ⟨by decide,
    (C5_print_titles_sticky_artist [some { name := "X", artists := ["Y"] },
        some { name := "Z", artists := [] }] []).2.1 (by decide)⟩

/-- C10: when the first slot with an attached track has an empty artist list,
`print_titles` reads the `artist_name` variable before any assignment and
fails on that track, emitting no output at all. -/
theorem C10_unbound_artist_error (firstPage : TitlePage) (rest : List TitlePage)
    (t : Track) (ts : List Track)
    (h1 : attachedTracks (firstPage :: rest) = t :: ts) (h2 : t.artists = []) :
    print_titles firstPage rest = ([], true) := by
  unfold print_titles
  rw [titlesGo_spec, h1]
  simp [specTitles, nextArtist, h2]

/-- Witness for C10 at the concrete one-track playlist with no artist. -/
theorem C10_witness :
    print_titles [some { name := "Z", artists := [] }] [] = ([], true) :=
  C10_unbound_artist_error [some { name := "Z", artists := [] }] []
    { name := "Z", artists := [] } [] (by decide) rfl

lemma addLoop_fail (o : MergeOutcomes) (pl e : String)
    (batches : List (List String)) (k j : Nat)
    (hok : ∀ i, i < j → o.addRes (k + i) = Except.ok ())
    (he : o.addRes (k + j) = Except.error e)
    (hj : j < batches.length) :
    addLoop o pl batches k
      = ((batches.take (j + 1)).map (ApiCall.addItems pl), Except.error e) := by
  induction batches generalizing k j with
  | nil => simp at hj
  | cons b bs ih =>
    cases j with
    | zero =>
      rw [Nat.add_zero] at he
      simp [addLoop, he]
    | succ j =>
      have h0 : o.addRes k = Except.ok () := by
        have := hok 0 (Nat.succ_pos j)
        rwa [Nat.add_zero] at this
      have hok2 : ∀ i, i < j → o.addRes (k + 1 + i) = Except.ok () := by
        intro i hi
        rw [show k + 1 + i = k + (i + 1) by omega]
        exact hok (i + 1) (by omega)
      have he2 : o.addRes (k + 1 + j) = Except.error e := by
        rw [show k + 1 + j = k + (j + 1) by omega]
        exact he
      have hj2 : j < bs.length := by
        simp only [List.length_cons] at hj
        omega
      simp only [addLoop, h0]
      rw [ih (k + 1) j hok2 he2 hj2]
      simp [List.take_succ_cons]

lemma addLoop_calls_addItems (o : MergeOutcomes) (pl : String)
    (batches : List (List String)) (k : Nat) (c : ApiCall)
    (hc : c ∈ (addLoop o pl batches k).1) : ∃ b, c = ApiCall.addItems pl b := by
  induction batches generalizing k with
  | nil => simp [addLoop] at hc
  | cons b bs ih =>
    simp only [addLoop] at hc
    cases hr : o.addRes k with
    | error e =>
      rw [hr] at hc
      simp at hc
      exact ⟨b, hc⟩
    | ok u =>
      rw [hr] at hc
      simp only [List.mem_cons] at hc
      rcases hc with hc | hc
      · exact ⟨b, hc⟩
      · exact ih (k + 1) hc

lemma merge_run_no_delete (o : MergeOutcomes) (nm : String) (p : String) :
    ApiCall.deletePlaylist p ∉ (merge_playlists_run o nm).1 := by
  unfold merge_playlists_run
  cases o.userRes with
  | error e => simp
  | ok uid =>
    cases o.tracks1Res with
    | error e => simp
    | ok t1 =>
      cases o.tracks2Res with
      | error e => simp
      | ok t2 =>
        cases o.createRes with
        | error e => simp
        | ok plid =>
          intro hmem
          rcases List.mem_append.mp hmem with hpre | hadd
          · simp at hpre
          · obtain ⟨b, hb⟩ := addLoop_calls_addItems o plid _ 0 _ hadd
            simp at hb

/-- C6: every collaborator error propagates out of `merge_playlists`
unmodified and immediately — no call is retried and no further call is made
after the failing one — and when playlist creation succeeds but the
`(k+1)`-st batch write fails, the attempted calls are exactly the prefix up
to and including that write (the k successfully written batches remain), and
no deletion call on any playlist is ever issued. -/
theorem C6_fail_fast_no_cleanup (o : MergeOutcomes) (nm e uid plid : String)
    (t1 t2 : List String) (k : Nat) :
    (o.userRes = Except.error e →
        merge_playlists_run o nm = ([ApiCall.currentUser], Except.error e))
    ∧ (o.userRes = Except.ok uid → o.tracks1Res = Except.error e →
        merge_playlists_run o nm
          = ([ApiCall.currentUser, ApiCall.fetchTracks 1], Except.error e))
    ∧ (o.userRes = Except.ok uid → o.tracks1Res = Except.ok t1 →
        o.tracks2Res = Except.error e →
        merge_playlists_run o nm
          = ([ApiCall.currentUser, ApiCall.fetchTracks 1, ApiCall.fetchTracks 2],
             Except.error e))
    ∧ (o.userRes = Except.ok uid → o.tracks1Res = Except.ok t1 →
        o.tracks2Res = Except.ok t2 → o.createRes = Except.error e →
        merge_playlists_run o nm
          = ([ApiCall.currentUser, ApiCall.fetchTracks 1, ApiCall.fetchTracks 2,
              ApiCall.createPlaylist uid nm false], Except.error e))
    ∧ (o.userRes = Except.ok uid → o.tracks1Res = Except.ok t1 →
        o.tracks2Res = Except.ok t2 → o.createRes = Except.ok plid →
        (∀ i, i < k → o.addRes i = Except.ok ()) → o.addRes k = Except.error e →
        k < (writeBatches (buildMerged t1 t2)).length →
        merge_playlists_run o nm
          = ([ApiCall.currentUser, ApiCall.fetchTracks 1, ApiCall.fetchTracks 2,
              ApiCall.createPlaylist uid nm false]
              ++ ((writeBatches (buildMerged t1 t2)).take (k + 1)).map
                  (ApiCall.addItems plid),
             Except.error e))
    ∧ (∀ p, ApiCall.deletePlaylist p ∉ (merge_playlists_run o nm).1) := by
  refine ⟨?_, ?_, ?_, ?_, ?_, fun p => merge_run_no_delete o nm p⟩
  · intro hu
    unfold merge_playlists_run
    rw [hu]
  · intro hu h1
    unfold merge_playlists_run
    rw [hu, h1]
  · intro hu h1 h2
    unfold merge_playlists_run
    rw [hu, h1, h2]
  · intro hu h1 h2 hc
    unfold merge_playlists_run
    rw [hu, h1, h2, hc]
  · intro hu h1 h2 hc hok he hk
    have hadd := addLoop_fail o plid e (writeBatches (buildMerged t1 t2)) 0 k
      (by intro i hi; rw [Nat.zero_add]; exact hok i hi)
      (by rw [Nat.zero_add]; exact he) hk
    unfold merge_playlists_run
    rw [hu, h1, h2, hc]
    show ([ApiCall.currentUser, ApiCall.fetchTracks 1, ApiCall.fetchTracks 2,
        ApiCall.createPlaylist uid nm false]
          ++ (addLoop o plid (writeBatches (buildMerged t1 t2)) 0).1,
        (addLoop o plid (writeBatches (buildMerged t1 t2)) 0).2) = _
    rw [hadd]

/-- Witness for C6: with every `playlist_add_items` call failing with
`"boom"`, the run attempts exactly the user lookup, the two fetches, the
creation and the first batch write, and reports the error unmodified. -/
theorem C6_witness :
    merge_playlists_run exOutcomes "Mix"
      = ([ApiCall.currentUser, ApiCall.fetchTracks 1, ApiCall.fetchTracks 2,
          ApiCall.createPlaylist "user1" "Mix" false,
          ApiCall.addItems "PLID123" ["a0", "b0", "a1", "b1", "a2"]],
         Except.error "boom") := by
  rw [(C6_fail_fast_no_cleanup exOutcomes "Mix" "boom" "user1" "PLID123"
      ["a0", "a1", "a2"] ["b0", "b1"] 0).2.2.2.2.1 rfl rfl rfl rfl
      (fun i hi => absurd hi (Nat.not_lt_zero i)) rfl (by decide)]
  rfl
